import Mathlib

/-!
# Verification of the `region` library against its specification

Shallow embedding of the repository's three source concerns:

* `src/region-funcs.ts` — the shape predicate table (`isInShape` over
  Ball / Cylinder / Block, defaulting to `false` for any other part type);
* `src/index.ts` — `BasePartRegion` / `RegionNegation` polling loops
  (enter/leave with optional timeout and cooperative cancellation), and
  `RegionUnion` (member filtering, `Promise.race` composition).

Geometry is modelled over `ℝ` (Roblox `Vec3` / `CFrame` components are
floats; we verify the real-arithmetic contract).  The source is roblox-ts
1.x (it uses `task.wait`, optional calls and nullish coalescing), which
compiles to Lua but emulates JavaScript truthiness in conditions: the
`timeout` guard is falsy for `undefined` and for `0`, while an array — an
object value — is truthy even when empty (as it also is in raw Lua).  The
embedding makes those two spots explicit (`tableTruthy`, `timeoutTruthy`).

The polling loops are modelled as a discrete trace: check index `k` happens
after `k` step-function suspensions; `dur j` is the duration of the `j`-th
suspension, so the `os.clock() - start` reading at the post-step timeout
check after `j` suspensions is `elapsed dur j`.
-/

noncomputable section Geometry

/-- Roblox `Vector3`, components as reals. -/
@[ext]
structure Vec3 where
  x : ℝ
  y : ℝ
  z : ℝ

def Vec3.sub (a b : Vec3) : Vec3 :=
  ⟨a.x - b.x, a.y - b.y, a.z - b.z⟩

def Vec3.add (a b : Vec3) : Vec3 :=
  ⟨a.x + b.x, a.y + b.y, a.z + b.z⟩

/-- `Vec3:div` by another vector: componentwise division
(`point.div(new Vec3(...))` in the source). -/
def Vec3.divV (a b : Vec3) : Vec3 :=
  ⟨a.x / b.x, a.y / b.y, a.z / b.z⟩

/-- `Vec3:div` by a scalar (`size.div(2)` in the source). -/
def Vec3.divS (a : Vec3) (s : ℝ) : Vec3 :=
  ⟨a.x / s, a.y / s, a.z / s⟩

/-- `Vec3.Magnitude`: the Euclidean length of the vector. -/
def Vec3.magnitude (v : Vec3) : ℝ :=
  Real.sqrt (v.x ^ 2 + v.y ^ 2 + v.z ^ 2)

/-- A 3×3 real matrix, row major: `mij` is row `i`, column `j`. -/
@[ext]
structure Mat3 where
  m11 : ℝ
  m12 : ℝ
  m13 : ℝ
  m21 : ℝ
  m22 : ℝ
  m23 : ℝ
  m31 : ℝ
  m32 : ℝ
  m33 : ℝ

def Mat3.id : Mat3 :=
  ⟨1, 0, 0, 0, 1, 0, 0, 0, 1⟩

def Mat3.transpose (m : Mat3) : Mat3 :=
  ⟨m.m11, m.m21, m.m31, m.m12, m.m22, m.m32, m.m13, m.m23, m.m33⟩

def Mat3.mulVec (m : Mat3) (v : Vec3) : Vec3 :=
  ⟨m.m11 * v.x + m.m12 * v.y + m.m13 * v.z,
   m.m21 * v.x + m.m22 * v.y + m.m23 * v.z,
   m.m31 * v.x + m.m32 * v.y + m.m33 * v.z⟩

def Mat3.mul (a b : Mat3) : Mat3 :=
  ⟨a.m11 * b.m11 + a.m12 * b.m21 + a.m13 * b.m31,
   a.m11 * b.m12 + a.m12 * b.m22 + a.m13 * b.m32,
   a.m11 * b.m13 + a.m12 * b.m23 + a.m13 * b.m33,
   a.m21 * b.m11 + a.m22 * b.m21 + a.m23 * b.m31,
   a.m21 * b.m12 + a.m22 * b.m22 + a.m23 * b.m32,
   a.m21 * b.m13 + a.m22 * b.m23 + a.m23 * b.m33,
   a.m31 * b.m11 + a.m32 * b.m21 + a.m33 * b.m31,
   a.m31 * b.m12 + a.m32 * b.m22 + a.m33 * b.m32,
   a.m31 * b.m13 + a.m32 * b.m23 + a.m33 * b.m33⟩

/-- Roblox `CFrame`: a position and a rotation matrix.  Roblox keeps the
rotation part orthonormal, and computes the rigid inverse with the
transpose, which is what `PointToObjectSpace` uses. -/
structure CFrame where
  position : Vec3
  rotation : Mat3

/-- `CFrame:PointToObjectSpace(p)`: the point expressed in the frame's local
space, `Rᵀ (p - position)` (rigid inverse applied to `p`). -/
def CFrame.pointToObjectSpace (cf : CFrame) (p : Vec3) : Vec3 :=
  cf.rotation.transpose.mulVec (p.sub cf.position)

/-- `Enum.PartType`; the shape map of `region-funcs.ts` only has entries for
`Ball`, `Cylinder` and `Block`. -/
inductive PartType where
  | Ball
  | Cylinder
  | Block
  | Wedge
  | CornerWedge
deriving DecidableEq

/-- The `Ball` entry of the shape map:
`point.sub(position.Position).Magnitude <= size.X`. -/
def ballShape (point : Vec3) (position : CFrame) (size : Vec3) : Prop :=
  (point.sub position.position).magnitude ≤ size.x

/-- The `Cylinder` entry of the shape map: the local point is divided
componentwise by `(1, size.X / 2, 1)` and compared against
`radius = size.X / 2` in X and Z and against `1` in Y. -/
def cylinderShape (point : Vec3) (position : CFrame) (size : Vec3) : Prop :=
  let relPoint := (position.pointToObjectSpace point).divV ⟨1, size.x / 2, 1⟩
  let radius := size.x / 2
  |relPoint.x| ≤ radius ∧ |relPoint.z| ≤ radius ∧ |relPoint.y| ≤ 1

/-- The `Block` entry of the shape map: the local point is divided
componentwise by the half extents `size.div(2)` and each component is
compared against `1`. -/
def blockShape (point : Vec3) (position : CFrame) (size : Vec3) : Prop :=
  let relPoint := (position.pointToObjectSpace point).divV (size.divS 2)
  |relPoint.x| ≤ 1 ∧ |relPoint.y| ≤ 1 ∧ |relPoint.z| ≤ 1

/-- `isInShape` of `region-funcs.ts`: look the shape up in the map and apply
it; `shapes.get(shape)?.(point, position, size) ?? false` yields `false` for
any part type without an entry. -/
def isInShape (point : Vec3) (position : CFrame) (size : Vec3) :
    PartType → Prop
  | .Ball => ballShape point position size
  | .Cylinder => cylinderShape point position size
  | .Block => blockShape point position size
  | _ => False

/-- A `Vec3` as a point of Euclidean 3-space. -/
def toEuclid (v : Vec3) : EuclideanSpace ℝ (Fin 3) :=
  ![v.x, v.y, v.z]

/-- Following the spec's words (§4.1 Sphere): the point is inside iff the
Euclidean distance from `transform.position` to `point` is at most
`extents.x`, the normalized radius. -/
def sphereSpecShape (point : Vec3) (position : CFrame) (size : Vec3) : Prop :=
  dist (toEuclid point) (toEuclid position.position) ≤ size.x

/-- Following the claim's words (C2): divide the local point componentwise by
`(1, halfHeight, 1)` with `halfHeight = extents.y / 2`, then require
`|x| ≤ radius`, `|z| ≤ radius` (`radius = extents.x / 2`) and `|y| ≤ 1`. -/
def cylinderClaimShape (point : Vec3) (position : CFrame) (size : Vec3) : Prop :=
  let relPoint := (position.pointToObjectSpace point).divV ⟨1, size.y / 2, 1⟩
  |relPoint.x| ≤ size.x / 2 ∧ |relPoint.z| ≤ size.x / 2 ∧ |relPoint.y| ≤ 1

/-- The amended cylinder normalization, as the source computes it: divide the
local point componentwise by `(1, radius, 1)` with `radius = extents.x / 2`
(the Y divisor is `extents.x / 2`, not `extents.y / 2`), then require
`|x| ≤ radius`, `|z| ≤ radius` and `|y| ≤ 1`. -/
def cylinderAmendedShape (point : Vec3) (position : CFrame) (size : Vec3) : Prop :=
  let relPoint := (position.pointToObjectSpace point).divV ⟨1, size.x / 2, 1⟩
  |relPoint.x| ≤ size.x / 2 ∧ |relPoint.z| ≤ size.x / 2 ∧ |relPoint.y| ≤ 1

/-- A quarter turn about the Z axis — a concrete non-trivial orthonormal
rotation for the rigid-invariance witness. -/
def rotZ : Mat3 :=
  ⟨0, -1, 0, 1, 0, 0, 0, 0, 1⟩

/-- A rigid motion applied to a point: rotate by `q`, then translate by `t`. -/
def rigidPoint (q : Mat3) (t : Vec3) (p : Vec3) : Vec3 :=
  (q.mulVec p).add t

/-- The same rigid motion applied to a region's defining frame. -/
def rigidFrame (q : Mat3) (t : Vec3) (cf : CFrame) : CFrame :=
  ⟨(q.mulVec cf.position).add t, q.mul cf.rotation⟩

end Geometry

/-! ## The asynchronous model

`Settle` is the observable fate of one promise: resolution or rejection at
a point in time (rationals keep the model executable); `none` stands for a
promise that never settles.  `race` is `Promise.race`: the first member to
settle wins, and racing an empty list leaves the promise pending forever. -/

/-- A settled promise: resolved or rejected at time `t`. -/
inductive Settle where
  | resolvedAt (t : ℚ)
  | rejectedAt (t : ℚ)
deriving DecidableEq

/-- When a settled promise settled. -/
def Settle.time : Settle → ℚ
  | .resolvedAt t => t
  | .rejectedAt t => t

/-- `Promise.race`: the outcome of the first promise of the list to settle
(ties go to the earlier list entry, matching resolution order).  With no
promises nothing can ever settle the race: `race [] = none`. -/
def race : List (Option Settle) → Option Settle
  | [] => none
  | o :: rest =>
    match o, race rest with
    | none, r => r
    | some s, none => some s
    | some s, some s2 => if s2.time < s.time then some s2 else some s

/-- A member `Region` of a `RegionUnion`, abstracted to what the union
consults: its synchronous `isInRegion` and the outcome of its `leftRegion`
promise for a tracked point and a timeout.  `α` is the tracked-point type. -/
structure SimRegion (α : Type) where
  isIn : α → Bool
  leftOutcome : α → Option ℚ → Option Settle

/-- Truthiness of an array value.  The result of `Array.filter` is an
array object: truthy in JavaScript whatever it holds, and likewise in the
compiled Lua (a table is neither `nil` nor `false`), so `!!arr` evaluates
to `true` even when the filter kept nothing. -/
def tableTruthy (_ : List β) : Bool :=
  true

/-- `RegionUnion.getRegions(point)`:
`this.regions.filter((region) => region.isInRegion(point))`. -/
def getRegions (rs : List (SimRegion α)) (point : α) : List (SimRegion α) :=
  rs.filter fun r => r.isIn point

/-- `RegionUnion.isInRegion(point)`:
`!!this.regions.filter((region) => region.isInRegion(point))` — the double
negation of a freshly built array. -/
def unionIsInRegion (rs : List (SimRegion α)) (point : α) : Bool :=
  tableTruthy (rs.filter fun r => r.isIn point)

/-- `RegionUnion.leftRegion(part, timeout)`:
`Promise.race(this.getRegions(part.Position).map((region) =>
region.leftRegion(part, timeout)))`. -/
def unionLeftRegion (rs : List (SimRegion α)) (point : α)
    (timeout : Option ℚ) : Option Settle :=
  race ((getRegions rs point).map fun r => r.leftOutcome point timeout)

/-! ## The polling loop of `BasePartRegion` / `RegionNegation`

Both `enteredRegion` and `leftRegion` (in `BasePartRegion` and, verbatim with
`this.region.step()`, in `RegionNegation`) run the same loop:

```
const start = os.clock();
let active = true;
onCancel(() => (active = false));
while (<continue condition on isInRegion(part.Position)>) {
    await this.step();
    if (active && timeout && os.clock() - start > timeout) {
        reject();
        return;
    }
}
resolve();
```

`pollFrom c trip fuel k` runs that loop from check index `k`: `c k` is the
loop-exit condition sampled at the `k`-th check (for `enteredRegion`,
`isInRegion` of the sampled position; for `leftRegion`, its negation);
`trip j` is the guarded timeout test evaluated right after the `j`-th
suspension.  `some (.resolved, k)` means `resolve()` was invoked at check
`k` (after exactly `k` suspensions), `some (.rejected, j)` means `reject()`
was invoked after the `j`-th suspension, and `none` means the loop was still
running after `fuel` iterations. -/

/-- Which promise callback the loop invoked. -/
inductive PollEvent where
  | resolved
  | rejected
deriving DecidableEq

/-- The polling loop, fuelled: check the exit condition first (no suspension
before the first check), then suspend, then run the timeout test. -/
def pollFrom (c trip : ℕ → Bool) : ℕ → ℕ → Option (PollEvent × ℕ)
  | 0, _ => none
  | fuel + 1, k =>
    if c k then some (.resolved, k)
    else if trip (k + 1) then some (.rejected, k + 1)
    else pollFrom c trip fuel (k + 1)

/-- Wall-clock time after `j` suspensions, `dur i` being the duration the
`i`-th `await this.step()` took. -/
def elapsed (dur : ℕ → ℚ) : ℕ → ℚ
  | 0 => 0
  | k + 1 => elapsed dur k + dur k

/-- Truthiness of the `timeout` argument in the compiled guard.  roblox-ts
1.x emulates JavaScript truthiness for a `number | undefined` operand
(the guard compiles with `timeout ~= 0 and timeout == timeout and
timeout ~= nil` style checks): an omitted argument is `undefined` (falsy)
and `0` is falsy too; every other number is truthy. -/
def timeoutTruthy : Option ℚ → Bool
  | none => false
  | some t => decide (t ≠ 0)

/-- The guarded timeout test after the `j`-th suspension:
`active && timeout && os.clock() - start > timeout`.  `cancelled j` is
whether the pending operation's cancellation hook has run by that moment
(`active` is its negation). -/
def stepTrip (dur : ℕ → ℚ) (cancelled : ℕ → Bool) (timeout : Option ℚ)
    (j : ℕ) : Bool :=
  !cancelled j && timeoutTruthy timeout && decide (timeout.getD 0 < elapsed dur j)

/-- One enter/leave wait as the source runs it: the loop from check 0 with
exit condition `c` and the guarded timeout test. -/
def regionPoll (c : ℕ → Bool) (dur : ℕ → ℚ) (cancelled : ℕ → Bool)
    (timeout : Option ℚ) (fuel : ℕ) : Option (PollEvent × ℕ) :=
  pollFrom c (stepTrip dur cancelled timeout) fuel 0

/-- `BasePartRegion.enteredRegion`: the loop is
`while (!this.isInRegion(part.Position))`, so the exit condition is
containment itself; `isIn j` is `isInRegion` of the position sampled at the
`j`-th check. -/
def enteredRegionPoll (isIn : ℕ → Bool) (dur : ℕ → ℚ) (cancelled : ℕ → Bool)
    (timeout : Option ℚ) (fuel : ℕ) : Option (PollEvent × ℕ) :=
  regionPoll (fun j => isIn j) dur cancelled timeout fuel

/-- `BasePartRegion.leftRegion`: the loop is
`while (this.isInRegion(part.Position))`, so the exit condition is
non-containment. -/
def leftRegionPoll (isIn : ℕ → Bool) (dur : ℕ → ℚ) (cancelled : ℕ → Bool)
    (timeout : Option ℚ) (fuel : ℕ) : Option (PollEvent × ℕ) :=
  regionPoll (fun j => !isIn j) dur cancelled timeout fuel

/-! ## Helper lemmas about the polling loop -/

/-- Inversion for a resolved run: `resolve()` at check `k` means the exit
condition first held at check `k` after the start index, and no timeout test
tripped at or before `k`. -/
theorem pollFrom_resolved_inv {c trip : ℕ → Bool} :
    ∀ {fuel i k : ℕ}, pollFrom c trip fuel i = some (.resolved, k) →
      i ≤ k ∧ c k = true ∧ (∀ j, i ≤ j → j < k → c j = false) ∧
        (∀ j, i < j → j ≤ k → trip j = false) := by
  intro fuel
  induction fuel with
  | zero => intro i k h; simp [pollFrom] at h
  | succ fuel ih =>
    intro i k h
    rw [pollFrom] at h
    by_cases hc : c i = true
    · rw [if_pos hc] at h
      obtain ⟨rfl⟩ : k = i := by
        cases h; rfl
      refine ⟨le_refl i, hc, ?_, ?_⟩
      · intro j h1 h2; omega
      · intro j h1 h2; omega
    · rw [if_neg hc] at h
      by_cases ht : trip (i + 1) = true
      · rw [if_pos ht] at h
        simp at h
      · rw [if_neg ht] at h
        obtain ⟨h1, h2, h3, h4⟩ := ih h
        refine ⟨by omega, h2, ?_, ?_⟩
        · intro j hj1 hj2
          rcases Nat.eq_or_lt_of_le hj1 with rfl | hlt
          · exact Bool.not_eq_true _ ▸ (by simpa using hc)
          · exact h3 j hlt hj2
        · intro j hj1 hj2
          rcases Nat.eq_or_lt_of_le (Nat.succ_le_of_lt hj1) with hj | hlt
          · exact hj ▸ (by simpa using ht)
          · exact h4 j (by omega) hj2

/-- Inversion for a rejected run: `reject()` after suspension `k` means the
timeout test first tripped there, with the exit condition never holding
before. -/
theorem pollFrom_rejected_inv {c trip : ℕ → Bool} :
    ∀ {fuel i k : ℕ}, pollFrom c trip fuel i = some (.rejected, k) →
      i < k ∧ trip k = true ∧ (∀ j, i ≤ j → j < k → c j = false) ∧
        (∀ j, i < j → j < k → trip j = false) := by
  intro fuel
  induction fuel with
  | zero => intro i k h; simp [pollFrom] at h
  | succ fuel ih =>
    intro i k h
    rw [pollFrom] at h
    by_cases hc : c i = true
    · rw [if_pos hc] at h
      simp at h
    · rw [if_neg hc] at h
      by_cases ht : trip (i + 1) = true
      · rw [if_pos ht] at h
        obtain ⟨rfl⟩ : k = i + 1 := by cases h; rfl
        refine ⟨by omega, ht, ?_, ?_⟩
        · intro j h1 h2
          have : j = i := by omega
          exact this ▸ (by simpa using hc)
        · intro j h1 h2; omega
      · rw [if_neg ht] at h
        obtain ⟨h1, h2, h3, h4⟩ := ih h
        refine ⟨by omega, h2, ?_, ?_⟩
        · intro j hj1 hj2
          rcases Nat.eq_or_lt_of_le hj1 with rfl | hlt
          · exact (by simpa using hc)
          · exact h3 j hlt hj2
        · intro j hj1 hj2
          rcases Nat.eq_or_lt_of_le (Nat.succ_le_of_lt hj1) with hj | hlt
          · exact hj ▸ (by simpa using ht)
          · exact h4 j (by omega) hj2

/-- A run that resolves: if the exit condition first holds at check `k` and
no timeout test trips on the way, the loop invokes `resolve()` at check `k`
once the fuel covers the `k - i + 1` checks. -/
theorem pollFrom_run_resolve {c trip : ℕ → Bool} :
    ∀ {fuel i k : ℕ}, i ≤ k → (∀ j, i ≤ j → j < k → c j = false) →
      (∀ j, i < j → j ≤ k → trip j = false) → c k = true → k - i < fuel →
      pollFrom c trip fuel i = some (.resolved, k) := by
  intro fuel
  induction fuel with
  | zero => intro i k _ _ _ _ hf; omega
  | succ fuel ih =>
    intro i k hik hc htrip hck hf
    rw [pollFrom]
    rcases Nat.eq_or_lt_of_le hik with rfl | hlt
    · rw [if_pos hck]
    · rw [if_neg (by simp [hc i (le_refl i) hlt]),
        if_neg (by simp [htrip (i + 1) (by omega) (by omega)])]
      exact ih (by omega) (fun j h1 h2 => hc j (by omega) h2)
        (fun j h1 h2 => htrip j (by omega) h2) hck (by omega)

/-- A run that rejects: if the exit condition never holds before suspension
`k` and the timeout test first trips at `k`, the loop invokes `reject()`
there once the fuel covers the `k - i` iterations. -/
theorem pollFrom_run_reject {c trip : ℕ → Bool} :
    ∀ {fuel i k : ℕ}, i < k → (∀ j, i ≤ j → j < k → c j = false) →
      (∀ j, i < j → j < k → trip j = false) → trip k = true → k - i ≤ fuel →
      pollFrom c trip fuel i = some (.rejected, k) := by
  intro fuel
  induction fuel with
  | zero => intro i k hik _ _ _ hf; omega
  | succ fuel ih =>
    intro i k hik hc htrip htk hf
    rw [pollFrom, if_neg (by simp [hc i (le_refl i) hik])]
    by_cases hk : k = i + 1
    · subst hk
      rw [if_pos htk]
    · have hlt : i + 1 < k := by omega
      rw [if_neg (by simp [htrip (i + 1) (by omega) hlt])]
      exact ih (by omega) (fun j h1 h2 => hc j (by omega) h2)
        (fun j h1 h2 => htrip j (by omega) h2) htk (by omega)

/-- With the cancellation hook run, `active` is `false` and the guarded
timeout test can never trip. -/
theorem stepTrip_cancelled {cancelled : ℕ → Bool} (dur : ℕ → ℚ)
    (timeout : Option ℚ) {j : ℕ} (h : cancelled j = true) :
    stepTrip dur cancelled timeout j = false := by
  simp [stepTrip, h]

/-- With the timeout argument omitted (`nil`, the only falsy value beside
`false`), the guarded timeout test can never trip. -/
theorem stepTrip_none (dur : ℕ → ℚ) (cancelled : ℕ → Bool) (j : ℕ) :
    stepTrip dur cancelled none j = false := by
  simp [stepTrip, timeoutTruthy]

/-- An uncancelled wait with a supplied nonzero timeout trips exactly when
the elapsed wall-clock time exceeds it. -/
theorem stepTrip_active {t : ℚ} (ht : t ≠ 0) (dur : ℕ → ℚ) (j : ℕ) :
    stepTrip dur (fun _ => false) (some t) j = decide (t < elapsed dur j) := by
  simp [stepTrip, timeoutTruthy, ht]

/-- With `0` supplied as the timeout the guard is falsy (`0` is falsy under
the emulated JavaScript truthiness), so the timeout test can never trip:
passing `0` disables the timeout. -/
theorem stepTrip_zero (dur : ℕ → ℚ) (cancelled : ℕ → Bool) (j : ℕ) :
    stepTrip dur cancelled (some 0) j = false := by
  simp [stepTrip, timeoutTruthy]

/-- Each step lasting at least `δ` bounds the elapsed clock from below. -/
theorem mul_le_elapsed {dur : ℕ → ℚ} {δ : ℚ} (hdur : ∀ j, δ ≤ dur j) :
    ∀ k : ℕ, (k : ℚ) * δ ≤ elapsed dur k := by
  intro k
  induction k with
  | zero => simp [elapsed]
  | succ k ih =>
    rw [elapsed]
    push_cast
    have := hdur k
    nlinarith

/-! ## Claims about the polling protocol -/

/-- C5: for every `PrimitiveRegion` (`BasePartRegion`) enter/leave wait, the
containment condition is checked before any suspension — if it already holds
at check 0 the wait resolves after zero step-function calls — and
`enteredRegion` resolves only at the first check where `isInRegion` is
`true`, `leftRegion` only at the first check where it is `false`. -/
theorem basePartRegion_poll_check_first (isIn : ℕ → Bool) (dur : ℕ → ℚ)
    (cancelled : ℕ → Bool) (timeout : Option ℚ) (fuel k : ℕ) :
    (isIn 0 = true → 0 < fuel →
      enteredRegionPoll isIn dur cancelled timeout fuel = some (.resolved, 0)) ∧
    (isIn 0 = false → 0 < fuel →
      leftRegionPoll isIn dur cancelled timeout fuel = some (.resolved, 0)) ∧
    (enteredRegionPoll isIn dur cancelled timeout fuel = some (.resolved, k) →
      isIn k = true ∧ ∀ j, j < k → isIn j = false) ∧
    (leftRegionPoll isIn dur cancelled timeout fuel = some (.resolved, k) →
      isIn k = false ∧ ∀ j, j < k → isIn j = true) := by
  refine ⟨?_, ?_, ?_, ?_⟩
  · intro h0 hf
    obtain ⟨fuel, rfl⟩ : ∃ f, fuel = f + 1 :=
      ⟨fuel - 1, by omega⟩
    simp [enteredRegionPoll, regionPoll, pollFrom, h0]
  · intro h0 hf
    obtain ⟨fuel, rfl⟩ : ∃ f, fuel = f + 1 :=
      ⟨fuel - 1, by omega⟩
    simp [leftRegionPoll, regionPoll, pollFrom, h0]
  · intro h
    obtain ⟨-, h2, h3, -⟩ := pollFrom_resolved_inv h
    exact ⟨h2, fun j hj => h3 j (Nat.zero_le j) hj⟩
  · intro h
    obtain ⟨-, h2, h3, -⟩ := pollFrom_resolved_inv h
    refine ⟨by simpa using h2, fun j hj => by simpa using h3 j (Nat.zero_le j) hj⟩

/-- C4 (amended): cancellation only silences the wait, it does not stop the
loop.  The executor runs check 0 and starts the first suspension
synchronously, so the caller can cancel at the earliest while the first
`step()` is in flight; here the hook has run by every post-suspension
check.  From then on the timeout test is disabled so `reject()` is never
invoked — externally the cancelled promise never settles — but the loop
keeps suspending and polling, and still invokes `resolve()` at the first
check where the exit condition holds (a no-op on the cancelled promise). -/
theorem cancelledPoll_keeps_polling (c : ℕ → Bool) (dur : ℕ → ℚ)
    (timeout : Option ℚ) (cancelled : ℕ → Bool)
    (hcan : ∀ j, 1 ≤ j → cancelled j = true) :
    (∀ fuel k, regionPoll c dur cancelled timeout fuel ≠ some (.rejected, k)) ∧
    (∀ k, (∀ j, j < k → c j = false) → c k = true → ∀ fuel, k < fuel →
      regionPoll c dur cancelled timeout fuel = some (.resolved, k)) := by
  constructor
  · intro fuel k h
    obtain ⟨h1, h2, -, -⟩ := pollFrom_rejected_inv h
    rw [stepTrip_cancelled dur timeout (hcan k h1)] at h2
    exact Bool.false_ne_true h2
  · intro k hbefore hk fuel hf
    exact pollFrom_run_resolve (Nat.zero_le k)
      (fun j _ hj => hbefore j hj)
      (fun j hj _ => stepTrip_cancelled dur timeout (hcan j hj))
      hk (by omega)

/-- Witness for C4's amended theorem: a wait cancelled during its first
suspension (the hook has run by every post-step check), whose condition
first holds at check 2, never rejects — and still steps on and resolves at
check 2. -/
theorem cancelledPoll_keeps_polling_witness :
    (∀ fuel k, regionPoll (fun j => decide (2 ≤ j)) (fun _ => 1)
      (fun j => decide (1 ≤ j)) none fuel ≠ some (.rejected, k)) ∧
    (∀ k, (∀ j, j < k → decide (2 ≤ j) = false) → decide (2 ≤ k) = true →
      ∀ fuel, k < fuel → regionPoll (fun j => decide (2 ≤ j)) (fun _ => 1)
        (fun j => decide (1 ≤ j)) none fuel = some (.resolved, k)) :=
  cancelledPoll_keeps_polling (fun j => decide (2 ≤ j)) (fun _ => 1) none
    (fun j => decide (1 ≤ j)) (fun _ hj => decide_eq_true hj)

/-- Counterexample to C4 as stated: the claim says that once the caller
cancels, no further step-function invocation occurs.  Here the caller
cancels during the first suspension — the earliest possible moment, since
the executor runs check 0 and starts the first `step()` synchronously — so
the hook has run by check 1 (`cancelled j` for `j ≥ 1`); the exit
condition first holds at check 2.  The loop nevertheless reaches check 2,
which requires invoking the step function between checks 1 and 2 — a
suspension performed after cancellation took effect — and then calls
`resolve()` there: the `active` flag only guards the timeout `reject()`. -/
theorem cancelledPoll_still_steps_cex :
    regionPoll (fun j => decide (2 ≤ j)) (fun _ => 1)
        (fun j => decide (1 ≤ j)) none 4 = some (.resolved, 2) := by
  norm_num [regionPoll, pollFrom, stepTrip, timeoutTruthy, elapsed]

/-- C6: an uncancelled enter/leave wait with a supplied positive timeout
(a `0` timeout compiles to a falsy guard and means no timeout at all — see
C10) whose timeout elapses before the exit condition ever holds (every
check where the condition holds lies strictly beyond the timeout; each
suspension lasts at least `δ > 0`, as a real `task.wait` does) invokes
`reject()` at the first post-suspension check past the timeout, and never
resolves, for any sufficient fuel.  The exit condition `c` is `isInRegion`
of the sampled position for `enteredRegion` and its negation for
`leftRegion`. -/
theorem regionPoll_timeout_rejects (c : ℕ → Bool) (dur : ℕ → ℚ) (t δ : ℚ)
    (hδ : 0 < δ) (hdur : ∀ j, δ ≤ dur j) (ht : 0 < t)
    (hflip : ∀ k, c k = true → t < elapsed dur k) :
    ∃ k, 0 < k ∧
      (∀ fuel, k ≤ fuel →
        regionPoll c dur (fun _ => false) (some t) fuel = some (.rejected, k)) ∧
      (∀ fuel m,
        regionPoll c dur (fun _ => false) (some t) fuel ≠ some (.resolved, m)) := by
  have hex : ∃ k : ℕ, t < elapsed dur k := by
    obtain ⟨n, hn⟩ := exists_nat_gt (t / δ)
    refine ⟨n, lt_of_lt_of_le ?_ (mul_le_elapsed hdur n)⟩
    rw [div_lt_iff₀ hδ] at hn
    exact hn
  classical
  let k := Nat.find hex
  have hk : t < elapsed dur k := Nat.find_spec hex
  have hmin : ∀ j, j < k → ¬t < elapsed dur j := fun j hj => Nat.find_min hex hj
  have hk0 : 0 < k := by
    rcases Nat.eq_zero_or_pos k with hz | hp
    · exfalso
      have := hk
      rw [hz] at this
      simp [elapsed] at this
      exact absurd this (not_lt_of_le ht.le)
    · exact hp
  refine ⟨k, hk0, ?_, ?_⟩
  · intro fuel hf
    refine pollFrom_run_reject hk0 ?_ ?_ ?_ (by omega)
    · intro j _ hj
      cases hcj : c j with
      | false => rfl
      | true => exact absurd (hflip j hcj) (hmin j hj)
    · intro j _ hj
      rw [stepTrip_active (ne_of_gt ht)]
      simpa using hmin j hj
    · rw [stepTrip_active (ne_of_gt ht)]
      simpa using hk
  · intro fuel m h
    obtain ⟨-, h2, -, h4⟩ := pollFrom_resolved_inv h
    have hm : t < elapsed dur m := hflip m h2
    have hm0 : 0 < m := by
      rcases Nat.eq_zero_or_pos m with hz | hp
      · exfalso
        rw [hz] at hm
        simp [elapsed] at hm
        exact absurd hm (not_lt_of_le ht.le)
      · exact hp
    have := h4 m hm0 (le_refl m)
    rw [stepTrip_active (ne_of_gt ht)] at this
    simp [hm] at this

/-- Witness for C6: condition never holds (`c ≡ false`), each step lasts 1
time unit, timeout 2: the wait rejects (at the third post-step check, the
first with elapsed time `3 > 2`) and never resolves. -/
theorem regionPoll_timeout_rejects_witness :
    ∃ k, 0 < k ∧
      (∀ fuel, k ≤ fuel →
        regionPoll (fun _ => false) (fun _ => 1) (fun _ => false) (some 2)
          fuel = some (.rejected, k)) ∧
      (∀ fuel m,
        regionPoll (fun _ => false) (fun _ => 1) (fun _ => false) (some 2)
          fuel ≠ some (.resolved, m)) :=
  regionPoll_timeout_rejects (fun _ => false) (fun _ => 1) 2 1 (by norm_num)
    (fun _ => le_refl 1) (by norm_num)
    (fun k h => absurd h (by simp))

/-- C10: with the timeout argument omitted (`undefined`) or passed as `0`,
the reject site's guard `active && timeout && ...` is falsy — roblox-ts
1.x emulates JavaScript truthiness, under which both `undefined` and `0`
are falsy — so the only reject site is unreachable: the wait can only ever
resolve (or stay pending forever), for any condition, step durations,
cancellation pattern and fuel. -/
theorem noTimeoutPoll_never_rejects (c : ℕ → Bool) (dur : ℕ → ℚ)
    (cancelled : ℕ → Bool) (timeout : Option ℚ)
    (htimeout : timeout = none ∨ timeout = some 0) (fuel k : ℕ)
    (r : PollEvent)
    (h : regionPoll c dur cancelled timeout fuel = some (r, k)) :
    r = PollEvent.resolved := by
  cases r with
  | resolved => rfl
  | rejected =>
    obtain ⟨-, h2, -, -⟩ := pollFrom_rejected_inv h
    rcases htimeout with rfl | rfl
    · rw [stepTrip_none] at h2
      exact absurd h2 Bool.false_ne_true
    · rw [stepTrip_zero] at h2
      exact absurd h2 Bool.false_ne_true

/-- Witness for C10 at a concrete wait: the timeout is passed as `0`, the
condition first holds at check 1, and the poll resolves — by the theorem
it could not have rejected. -/
theorem noTimeoutPoll_never_rejects_witness :
    regionPoll (fun j => decide (1 ≤ j)) (fun _ => 1) (fun _ => false)
        (some 0) 3 = some (.resolved, 1) ∧
      PollEvent.resolved = PollEvent.resolved :=
  ⟨by norm_num [regionPoll, pollFrom, stepTrip, timeoutTruthy, elapsed],
    noTimeoutPoll_never_rejects (fun j => decide (1 ≤ j)) (fun _ => 1)
      (fun _ => false) (some 0) (Or.inr rfl) 3 1 PollEvent.resolved
      (by norm_num [regionPoll, pollFrom, stepTrip, timeoutTruthy, elapsed])⟩

/-! ## Claims about `RegionUnion` -/

/-- C1 (code evaluation): `RegionUnion.isInRegion` returns `true` for EVERY
point and every member list — `!!this.regions.filter(...)` double-negates a
table, and a table is truthy even when the filter kept nothing.  In
particular it returns `true` at the failing input of the claim, a union
none of whose members contains the point (the claim and the method's own
doc comment demand `false` there). -/
theorem unionIsInRegion_always_true (α : Type) (rs : List (SimRegion α))
    (p : α) : unionIsInRegion rs p = true :=
  rfl

/-- C3 (amended): `RegionUnion.leftRegion` races members' `leftRegion` over
exactly the members whose `isInRegion` currently holds for the point; but
when that subset is empty the race is `Promise.race([])`, which never
settles — the operation stays pending forever instead of resolving
immediately. -/
theorem unionLeftRegion_races_containing_members (α : Type)
    (rs : List (SimRegion α)) (p : α) (timeout : Option ℚ) :
    (∀ r, r ∈ getRegions rs p ↔ r ∈ rs ∧ r.isIn p = true) ∧
    (getRegions rs p = [] → unionLeftRegion rs p timeout = none) := by
  constructor
  · intro r
    simp [getRegions, List.mem_filter]
  · intro h
    rw [unionLeftRegion, h]
    rfl

/-- Counterexample to C3 as stated: a union of one member that does not
contain the point.  The claim says the returned operation resolves
immediately; the code races an empty list of promises, and the result never
settles (`none`), whatever the member's own `leftRegion` would do (here a
member whose `leftRegion` would resolve instantly). -/
theorem unionLeftRegion_empty_pends_cex :
    getRegions [⟨fun _ => false, fun _ _ => some (.resolvedAt 0)⟩]
        (() : Unit) = [] ∧
    unionLeftRegion [⟨fun _ => false, fun _ _ => some (.resolvedAt 0)⟩]
        (() : Unit) none = none := by
  constructor
  · rfl
  · rfl

/-! ## Claims about the shape predicate table -/

/-- C8: `isInShape` with a part type outside the map's enumeration — any
kind other than Ball, Cylinder and Block — reports the point as not
contained.  `shapes.get(shape)` is `undefined` there and the optional call
with the `?? false` fallback produces `false`; no error path exists (the
embedding is a total function). -/
theorem isInShape_unknown_kind_false (point : Vec3) (position : CFrame)
    (size : Vec3) (shape : PartType) (h1 : shape ≠ PartType.Ball)
    (h2 : shape ≠ PartType.Cylinder) (h3 : shape ≠ PartType.Block) :
    ¬isInShape point position size shape := by
  cases shape
  · exact absurd rfl h1
  · exact absurd rfl h2
  · exact absurd rfl h3
  · simp [isInShape]
  · simp [isInShape]

/-- Witness for C8 at the concrete kind `Wedge`: not one of the mapped
kinds, and the origin point is reported outside a unit region. -/
theorem isInShape_unknown_kind_false_witness :
    PartType.Wedge ≠ PartType.Ball ∧
      ¬isInShape ⟨0, 0, 0⟩ ⟨⟨0, 0, 0⟩, Mat3.id⟩ ⟨1, 1, 1⟩ PartType.Wedge :=
  ⟨by decide, isInShape_unknown_kind_false _ _ _ _ (by decide) (by decide)
    (by decide)⟩

/-- Counterexample to C2 as stated: the claim's normalization divides the
local point by `(1, halfHeight, 1)` with `halfHeight = extents.y / 2`; the
code divides by `(1, extents.x / 2, 1)`.  At the identity frame with
extents `(2, 4, 2)` and point `(0, 3/2, 0)`, the claim's predicate holds
(`(3/2) / 2 = 3/4 ≤ 1`) but the code's `isInShape` does not
(`(3/2) / 1 = 3/2 > 1`). -/
theorem cylinderClaim_halfHeight_cex :
    cylinderClaimShape ⟨0, 3 / 2, 0⟩ ⟨⟨0, 0, 0⟩, Mat3.id⟩ ⟨2, 4, 2⟩ ∧
      ¬isInShape ⟨0, 3 / 2, 0⟩ ⟨⟨0, 0, 0⟩, Mat3.id⟩ ⟨2, 4, 2⟩
        PartType.Cylinder := by
  constructor
  · simp only [cylinderClaimShape, CFrame.pointToObjectSpace, Mat3.id,
      Mat3.transpose, Mat3.mulVec, Vec3.sub, Vec3.divV]
    norm_num [abs_le]
  · simp only [isInShape, cylinderShape, CFrame.pointToObjectSpace, Mat3.id,
      Mat3.transpose, Mat3.mulVec, Vec3.sub, Vec3.divV]
    norm_num [abs_le]

/-- C2 (amended): for every point, transform and extents the code's Cylinder
predicate divides the local point componentwise by `(1, radius, 1)` —
`radius = extents.x / 2`, so the Y component is divided by `extents.x / 2`,
not by `extents.y / 2` — and holds iff `|x| ≤ radius`, `|z| ≤ radius` and
`|y| ≤ 1` after that division. -/
theorem isInShape_cylinder_divides_by_radius (point : Vec3)
    (position : CFrame) (size : Vec3) :
    isInShape point position size PartType.Cylinder ↔
      cylinderAmendedShape point position size := by
  simp only [isInShape, cylinderShape, cylinderAmendedShape]

/-- C7: the code's Ball predicate holds iff the Euclidean distance from the
transform's position to the point is at most `extents.x`, and the boundary
case — distance exactly `extents.x` — is inside (the comparison is `<=`). -/
theorem isInShape_ball_euclidean (point : Vec3) (position : CFrame)
    (size : Vec3) :
    (isInShape point position size PartType.Ball ↔
      sphereSpecShape point position size) ∧
    (dist (toEuclid point) (toEuclid position.position) = size.x →
      isInShape point position size PartType.Ball) := by
  have hd : dist (toEuclid point) (toEuclid position.position) =
      (point.sub position.position).magnitude := by
    simp [toEuclid, Vec3.sub, Vec3.magnitude, EuclideanSpace.dist_eq,
      Real.dist_eq, sq_abs, Fin.sum_univ_three]
  constructor
  · show ballShape point position size ↔ sphereSpecShape point position size
    rw [sphereSpecShape, hd]
    exact Iff.rfl
  · intro h
    show ballShape point position size
    rw [ballShape, ← hd]
    exact le_of_eq h

/-! ## Rigid-motion invariance (frame-relative containment) -/

theorem Vec3.add_sub_add (a b t : Vec3) : (a.add t).sub (b.add t) = a.sub b := by
  ext <;> simp [Vec3.add, Vec3.sub]

theorem Mat3.mulVec_sub (m : Mat3) (a b : Vec3) :
    m.mulVec (a.sub b) = (m.mulVec a).sub (m.mulVec b) := by
  ext <;> simp [Mat3.mulVec, Vec3.sub] <;> ring

theorem Mat3.transpose_mul (a b : Mat3) :
    (a.mul b).transpose = b.transpose.mul a.transpose := by
  ext <;> simp [Mat3.mul, Mat3.transpose] <;> ring

theorem Mat3.mul_mulVec (a b : Mat3) (v : Vec3) :
    (a.mul b).mulVec v = a.mulVec (b.mulVec v) := by
  ext <;> simp [Mat3.mul, Mat3.mulVec] <;> ring

theorem Mat3.id_mulVec (v : Vec3) : Mat3.id.mulVec v = v := by
  ext <;> simp [Mat3.id, Mat3.mulVec]

/-- Moving a frame and a point by the same rigid motion leaves the local
coordinates of the point unchanged (the rotation part must be orthonormal,
as every Roblox `CFrame` rotation is). -/
theorem pointToObjectSpace_rigid (q : Mat3) (t : Vec3) (cf : CFrame)
    (p : Vec3) (hq : q.transpose.mul q = Mat3.id) :
    (rigidFrame q t cf).pointToObjectSpace (rigidPoint q t p) =
      cf.pointToObjectSpace p := by
  have hqq : ∀ w, q.transpose.mulVec (q.mulVec w) = w := by
    intro w
    rw [← Mat3.mul_mulVec, hq, Mat3.id_mulVec]
  show (q.mul cf.rotation).transpose.mulVec
      (((q.mulVec p).add t).sub ((q.mulVec cf.position).add t)) =
    cf.rotation.transpose.mulVec (p.sub cf.position)
  rw [Vec3.add_sub_add, Mat3.transpose_mul, Mat3.mul_mulVec,
    ← Mat3.mulVec_sub, hqq]

/-- C9: applying one and the same rigid motion (any orthonormal rotation
`q` plus translation `t`) to a Box or Cylinder region's defining transform
and to the tested point leaves the containment verdict unchanged — both
predicates only consult the point's local coordinates in the frame. -/
theorem blockCylinder_rigid_invariant (q : Mat3) (t : Vec3) (point : Vec3)
    (position : CFrame) (size : Vec3) (hq : q.transpose.mul q = Mat3.id) :
    (isInShape (rigidPoint q t point) (rigidFrame q t position) size
        PartType.Block ↔
      isInShape point position size PartType.Block) ∧
    (isInShape (rigidPoint q t point) (rigidFrame q t position) size
        PartType.Cylinder ↔
      isInShape point position size PartType.Cylinder) := by
  have h := pointToObjectSpace_rigid q t position point hq
  constructor
  · show blockShape _ _ _ ↔ blockShape _ _ _
    rw [blockShape, blockShape, h]
  · show cylinderShape _ _ _ ↔ cylinderShape _ _ _
    rw [cylinderShape, cylinderShape, h]

/-- Witness for C9: the quarter turn `rotZ` with translation `(1, 2, 3)`
applied to the unit Box/Cylinder at the origin and to the origin point. -/
theorem blockCylinder_rigid_invariant_witness :
    rotZ.transpose.mul rotZ = Mat3.id ∧
    ((isInShape (rigidPoint rotZ ⟨1, 2, 3⟩ ⟨0, 0, 0⟩)
        (rigidFrame rotZ ⟨1, 2, 3⟩ ⟨⟨0, 0, 0⟩, Mat3.id⟩) ⟨1, 1, 1⟩
        PartType.Block ↔
      isInShape ⟨0, 0, 0⟩ ⟨⟨0, 0, 0⟩, Mat3.id⟩ ⟨1, 1, 1⟩ PartType.Block) ∧
     (isInShape (rigidPoint rotZ ⟨1, 2, 3⟩ ⟨0, 0, 0⟩)
        (rigidFrame rotZ ⟨1, 2, 3⟩ ⟨⟨0, 0, 0⟩, Mat3.id⟩) ⟨1, 1, 1⟩
        PartType.Cylinder ↔
      isInShape ⟨0, 0, 0⟩ ⟨⟨0, 0, 0⟩, Mat3.id⟩ ⟨1, 1, 1⟩
        PartType.Cylinder)) := by
  have h : rotZ.transpose.mul rotZ = Mat3.id := by
    ext <;> norm_num [rotZ, Mat3.transpose, Mat3.mul, Mat3.id]
  exact ⟨h, blockCylinder_rigid_invariant rotZ ⟨1, 2, 3⟩ ⟨0, 0, 0⟩
    ⟨⟨0, 0, 0⟩, Mat3.id⟩ ⟨1, 1, 1⟩ h⟩
